import Mathlib

/-
  Shallow embedding of the Sokoban rule engine (src/main.rs).
  Rust usize is modelled as Nat; i32 as Int with explicit range checks.
  Arithmetic that panics in Rust (debug-mode overflow / underflow, and
  out-of-bounds Vec indexing) is modelled by Option/none propagation.
-/

namespace Sokoban

-- Cast of usize to i32 (Rust `as`: truncate to 32 bits, reinterpret sign).
def usizeToI32 (n : Nat) : Int :=
  let m : Int := (n : Int) % (2 ^ 32)
  if m < 2 ^ 31 then m else m - 2 ^ 32

-- Cast of i32 to usize (Rust `as`: sign-extend to 64 bits, reinterpret).
def i32ToUsize (i : Int) : Nat := (i % (2 ^ 64)).toNat

-- i32 addition; none models the debug-mode overflow panic.
def i32Add (a b : Int) : Option Int :=
  if -(2 ^ 31) ≤ a + b ∧ a + b < 2 ^ 31 then some (a + b) else none

-- usize increment; none models the debug-mode overflow panic.
def usizeAdd1 (n : Nat) : Option Nat :=
  if n + 1 < 2 ^ 64 then some (n + 1) else none

-- usize decrement; none models the debug-mode underflow panic.
def usizeSub1 (n : Nat) : Option Nat :=
  if n = 0 then none else some (n - 1)

-- enum Direction
inductive Direction where
  | Up
  | Down
  | Left
  | Right
deriving DecidableEq, Repr

-- Direction::as_offset
def Direction.as_offset : Direction → Int × Int
  | Direction.Up => (0, -1)
  | Direction.Right => (1, 0)
  | Direction.Down => (0, 1)
  | Direction.Left => (-1, 0)

-- enum Tile
inductive Tile where
  | Wall
  | Player
  | PlayerOnGoal
  | Star
  | StarOnGoal
  | Goal
  | OutsideFloor
  | InsideFloor
deriving DecidableEq, Repr

-- Tile::from_char
def Tile.from_char (c : Char) : Except String Tile :=
  if c = '#' then Except.ok Tile.Wall
  else if c = '@' then Except.ok Tile.Player
  else if c = '+' then Except.ok Tile.PlayerOnGoal
  else if c = '$' then Except.ok Tile.Star
  else if c = '*' then Except.ok Tile.StarOnGoal
  else if c = '.' then Except.ok Tile.Goal
  else if c = ' ' then Except.ok Tile.OutsideFloor
  else Except.error "is an invalid tile"

-- struct Position { x: usize, y: usize }
structure Position where
  x : Nat
  y : Nat
deriving DecidableEq, Repr

-- Position::move_in_direction (unchecked usize arithmetic in the source;
-- none models the debug-mode panic on the x-1 / y-1 underflow).
def Position.move_in_direction (p : Position) (dir : Direction) : Option Position :=
  match dir with
  | Direction.Down => (usizeAdd1 p.y).map (fun y => Position.mk p.x y)
  | Direction.Up => (usizeSub1 p.y).map (fun y => Position.mk p.x y)
  | Direction.Left => (usizeSub1 p.x).map (fun x => Position.mk x p.y)
  | Direction.Right => (usizeAdd1 p.x).map (fun x => Position.mk x p.y)

-- struct Player
structure Player where
  position : Position
  direction : Direction
deriving DecidableEq, Repr

-- Player::move_in_direction
def Player.move_in_direction (p : Player) (direction : Direction) : Option Player :=
  (p.position.move_in_direction direction).map (fun q => Player.mk q direction)

-- struct Star (a box)
structure Star where
  position : Position
deriving DecidableEq, Repr

-- Star::move_in_direction
def Star.move_in_direction (s : Star) (direction : Direction) : Option Star :=
  (s.position.move_in_direction direction).map Star.mk

-- struct Goal
structure Goal where
  position : Position
deriving DecidableEq, Repr

-- struct GameState
structure GameState where
  player : Player
  stars : List Star
  goals : List Goal
  steps : Nat
deriving DecidableEq, Repr

-- struct Level
structure Level where
  width : Nat
  height : Nat
  map : List (List Tile)
  start_state : GameState
deriving DecidableEq, Repr

-- map[y][x] as a partial lookup (Rust indexing panics out of bounds).
def getCell {α : Type} (m : List (List α)) (x y : Nat) : Option α :=
  (m.get? y).bind (fun row => row.get? x)

-- map[y][x] = t (Rust panics when out of bounds; the engine only writes in
-- bounds, and the total no-op fallback keeps the model a function).
def setCell {α : Type} (m : List (List α)) (x y : Nat) (t : α) : List (List α) :=
  m.set y (((m.get? y).getD []).set x t)

-- map[y].len() with 0 for a missing row (only queried on present rows).
def rowLen {α : Type} (m : List (List α)) (y : Nat) : Nat :=
  ((m.get? y).getD []).length

-- Number of cells equal to old; used as the fuel bound for floodfill.
def countOld {α : Type} [DecidableEq α] (m : List (List α)) (old : α) : Nat :=
  (m.map (fun row => row.count old)).sum

-- fn floodfill, with explicit fuel for the recursion.  Every recursive call
-- site in the source guards on the target cell still being `old` and the
-- callee immediately overwrites it, so the nesting depth never exceeds the
-- number of `old` cells; fuel countOld+1 is therefore never exhausted for
-- old ≠ new (the engine only calls it with OutsideFloor ≠ InsideFloor).
def floodfillFuel {α : Type} [DecidableEq α] (old new : α) :
    Nat → List (List α) → Nat → Nat → List (List α)
  | 0, m, _, _ => m
  | fuel + 1, m, x, y =>
    let m0 := if getCell m x y = some old then setCell m x y new else m
    let m1 := if 0 < x ∧ getCell m0 (x - 1) y = some old then
                floodfillFuel old new fuel m0 (x - 1) y else m0
    let m2 := if x + 1 < rowLen m1 y ∧ getCell m1 (x + 1) y = some old then
                floodfillFuel old new fuel m1 (x + 1) y else m1
    let m3 := if 0 < y ∧ getCell m2 x (y - 1) = some old then
                floodfillFuel old new fuel m2 x (y - 1) else m2
    if y + 1 < m3.length ∧ getCell m3 x (y + 1) = some old then
      floodfillFuel old new fuel m3 x (y + 1) else m3

def floodfill {α : Type} [DecidableEq α] (m : List (List α)) (old new : α)
    (x y : Nat) : List (List α) :=
  floodfillFuel old new (countOld m old + 1) m x y

-- Level::is_wall, verbatim from the source including its boundary check:
--   if y < 0 || y >= self.height as i32 || x < 0 || x > self.height as i32
-- (note: x is compared against height, with a strict >).  none models the
-- panic of the subsequent map[y][x] indexing when it is out of bounds.
def Level.is_wall (l : Level) (x y : Int) : Option Bool :=
  if y < 0 ∨ y ≥ usizeToI32 l.height ∨ x < 0 ∨ x > usizeToI32 l.height then
    some false
  else
    (getCell l.map (i32ToUsize x) (i32ToUsize y)).map (fun t => t == Tile.Wall)

-- One scan line of Level::from_lines: walk the characters of a row at ordinate
-- y, producing the tile row plus the stars/goals/player recorded on it.  The
-- branch structure (including the unreachable PlayerOnGoal/StarOnGoal tests in
-- the goal branch) mirrors the source if/else chain.  A later player tile
-- overwrites an earlier one, as the source assignment does.
def parseTiles (y : Nat) :
    Nat → List Char → Except String (List Tile × List Star × List Goal × Option Position)
  | _, [] => Except.ok ([], [], [], none)
  | x, c :: cs => do
    let tile ← Tile.from_char c
    let (row, stars, goals, pp) ← parseTiles y (x + 1) cs
    if tile = Tile.Player ∨ tile = Tile.PlayerOnGoal then
      Except.ok (Tile.OutsideFloor :: row, stars, goals,
                 some (pp.getD (Position.mk x y)))
    else if tile = Tile.Star ∨ tile = Tile.StarOnGoal then
      Except.ok (Tile.OutsideFloor :: row, Star.mk (Position.mk x y) :: stars, goals, pp)
    else if tile = Tile.PlayerOnGoal ∨ tile = Tile.StarOnGoal ∨ tile = Tile.Goal then
      Except.ok (Tile.OutsideFloor :: row, stars, Goal.mk (Position.mk x y) :: goals, pp)
    else
      Except.ok (tile :: row, stars, goals, pp)

-- The row loop of Level::from_lines: parse each line, right-pad it with
-- OutsideFloor to the longest line length, and accumulate entities in
-- row-major order (a player on a later line overwrites an earlier one).
def parseRows (longest : Nat) :
    Nat → List String → Except String (List (List Tile) × List Star × List Goal × Option Position)
  | _, [] => Except.ok ([], [], [], none)
  | y, line :: rest => do
    let (row, stars, goals, pp) ← parseTiles y 0 line.toList
    let row2 := row ++ List.replicate (longest - line.length) Tile.OutsideFloor
    let (map, stars2, goals2, pp2) ← parseRows longest (y + 1) rest
    Except.ok (row2 :: map, stars ++ stars2, goals ++ goals2,
               if pp2.isSome then pp2 else pp)

-- Level::from_lines.  Line lengths are char counts; Rust's len() is a byte
-- count, but the two agree on every level that parses (all legal tiles are
-- ASCII, and any other character aborts the parse).
def Level.from_lines (lines : List String) : Except String Level :=
  match (lines.map String.length).max? with
  | none => Except.error "Invalid level: Level is empty"
  | some longest => do
    let (map, stars, goals, player_pos) ← parseRows longest 0 lines
    match player_pos with
    | none => Except.error "Invalid level: Level has no starting position"
    | some pos =>
      let height := map.length
      let map2 := floodfill map Tile.OutsideFloor Tile.InsideFloor pos.x pos.y
      Except.ok (Level.mk longest height map2
                  (GameState.mk (Player.mk pos Direction.Right) stars goals 0))

-- struct Game.  The camera fields are presentation-only (out of scope per the
-- spec) and are not part of the move/solve logic, so they are omitted.
structure Game where
  level : Level
  state : GameState
deriving DecidableEq, Repr

-- Game::from_level (camera construction omitted).
def Game.from_level (level : Level) : Game :=
  Game.mk level level.start_state

-- Game::is_blocked
def Game.is_blocked (g : Game) (x y : Int) : Option Bool :=
  (g.level.is_wall x y).map (fun w =>
    w || g.state.stars.contains (Star.mk (Position.mk (i32ToUsize x) (i32ToUsize y))))

-- Vec::position on the star list (first index holding s).
def listPosition (s : Star) : List Star → Option Nat
  | [] => none
  | a :: rest => if a = s then some 0 else (listPosition s rest).map (· + 1)

-- The open-floor arm of Game::make_move: move the player one cell (the state
-- already carries the updated facing direction).
def Game.walk (level : Level) (st1 : GameState) (direction : Direction) : Option Game :=
  (st1.player.move_in_direction direction).map (fun p2 =>
    Game.mk level (GameState.mk p2 st1.stars st1.goals st1.steps))

-- The box-pushing arm of Game::make_move: compute the push target (i32 sums),
-- query is_blocked on it; when blocked return with only facing changed,
-- otherwise relocate the box at index `position(star)` and move the player.
def Game.push_star (level : Level) (st1 : GameState) (direction : Direction)
    (off : Int × Int) (new_x new_y : Int) (star : Star) : Option Game :=
  (i32Add new_x off.1).bind (fun push_x =>
  (i32Add new_y off.2).bind (fun push_y =>
  ((Game.mk level st1).is_blocked push_x push_y).bind (fun b =>
  match b with
  | true => some (Game.mk level st1)
  | false =>
    (listPosition star st1.stars).bind (fun ind =>
    (st1.stars.get? ind).bind (fun s0 =>
    (s0.move_in_direction direction).bind (fun s1 =>
    (st1.player.move_in_direction direction).map (fun p2 =>
      Game.mk level (GameState.mk p2 (st1.stars.set ind s1) st1.goals st1.steps))))))))

-- Game::make_move.  The facing direction is set unconditionally first; none
-- models any debug-mode arithmetic panic or out-of-bounds indexing inside the
-- move (the source has no error return, it panics in those situations).
def Game.make_move (g : Game) (direction : Direction) : Option Game :=
  let st1 := GameState.mk (Player.mk g.state.player.position direction)
               g.state.stars g.state.goals g.state.steps
  let off := direction.as_offset
  (i32Add (usizeToI32 st1.player.position.x) off.1).bind (fun new_x =>
  (i32Add (usizeToI32 st1.player.position.y) off.2).bind (fun new_y =>
  (g.level.is_wall new_x new_y).bind (fun w =>
  match w with
  | true => some (Game.mk g.level st1)
  | false =>
    let star := Star.mk (Position.mk (i32ToUsize new_x) (i32ToUsize new_y))
    match st1.stars.contains star with
    | true => Game.push_star g.level st1 direction off new_x new_y star
    | false => Game.walk g.level st1 direction)))

-- Game::solved
def Game.solved (g : Game) : Bool :=
  g.state.stars.all (fun s => g.state.goals.contains (Goal.mk s.position))

-- str::trim_right (trailing whitespace removal).
def rustTrimRight (s : String) : String :=
  ((s.toList.reverse.dropWhile Char.isWhitespace).reverse).asString

-- Comment stripping: keep everything before the first semicolon.
def stripComment (s : String) : String :=
  (s.toList.takeWhile (fun c => c ≠ ';')).asString

-- Per-line preprocessing of load_levels: trim_right, then strip the comment.
def processLine (s : String) : String :=
  stripComment (rustTrimRight s)

-- The loop of fn load_levels over the already-split lines: nonblank processed
-- lines accumulate into map_lines; a blank line with a nonempty accumulator
-- flushes one level.  Lines left in the accumulator at the end are dropped,
-- exactly as in the source.
def loadLevelsGo (map_lines : List String) :
    List String → Except String (List Level)
  | [] => Except.ok []
  | l :: rest =>
    let line := processLine l
    if line ≠ "" then loadLevelsGo (map_lines ++ [line]) rest
    else if map_lines ≠ [] then do
      let lvl ← Level.from_lines map_lines
      let more ← loadLevelsGo [] rest
      Except.ok (lvl :: more)
    else loadLevelsGo [] rest

-- fn load_levels, on the line list produced by str::lines().
def load_levels (lines : List String) : Except String (List Level) :=
  loadLevelsGo [] lines

-- 4-connectivity of grid coordinates (column, row).
def Adjacent (p q : Nat × Nat) : Prop :=
  (p.1 = q.1 ∧ (p.2 = q.2 + 1 ∨ q.2 = p.2 + 1)) ∨
  (p.2 = q.2 ∧ (p.1 = q.1 + 1 ∨ q.1 = p.1 + 1))

-- One step of a path whose target cell holds the tile old.
def OldStep {α : Type} (m : List (List α)) (old : α) (p q : Nat × Nat) : Prop :=
  Adjacent p q ∧ getCell m q.1 q.2 = some old

-- Reachability through cells holding old (the start cell is unconstrained).
def ReachOld {α : Type} (m : List (List α)) (old : α) :
    Nat × Nat → Nat × Nat → Prop :=
  Relation.ReflTransGen (OldStep m old)

-- One step of a 4-connected path through non-Wall (floor) tiles.
def FloorStep (m : List (List Tile)) (p q : Nat × Nat) : Prop :=
  Adjacent p q ∧ ∃ t, getCell m q.1 q.2 = some t ∧ t ≠ Tile.Wall

-- 4-connected reachability through floor tiles.
def ReachableFloor (m : List (List Tile)) : Nat × Nat → Nat × Nat → Prop :=
  Relation.ReflTransGen (FloorStep m)

-- One floodfill stage relates maps m and m2: every cell is either unchanged,
-- or it held old, was relabelled to new, and is old-reachable from the stage
-- start s (the correctness invariant of the flood fill).
def FFLink {α : Type} (old new : α) (m m2 : List (List α)) (s : Nat × Nat) : Prop :=
  ∀ c : Nat × Nat,
    getCell m2 c.1 c.2 = getCell m c.1 c.2 ∨
    (getCell m c.1 c.2 = some old ∧ getCell m2 c.1 c.2 = some new ∧
      ReachOld m old s c)

-- Pairwise-distinct box positions.
def DistinctStars (l : List Star) : Prop :=
  l.Pairwise (fun a b => a.position ≠ b.position)

-- States reachable by some sequence of direction inputs, where every
-- intermediate transition completed without a runtime failure.
def Game.Reachable (g g2 : Game) : Prop :=
  Relation.ReflTransGen (fun a b => ∃ d, a.make_move d = some b) g g2

/-
  Concrete fixtures used by witnesses and counterexamples.
-/

-- The Level produced by parsing the single line "@".
def lvlE : Level :=
  Level.mk 1 1 [[Tile.InsideFloor]]
    (GameState.mk (Player.mk (Position.mk 0 0) Direction.Right) [] [] 0)

-- The Level produced by parsing the single line "@$ ".
def lvlC : Level :=
  Level.mk 3 1 [[Tile.InsideFloor, Tile.InsideFloor, Tile.InsideFloor]]
    (GameState.mk (Player.mk (Position.mk 0 0) Direction.Right)
      [Star.mk (Position.mk 1 0)] [] 0)

-- A wall-enclosed 5 by 3 level with the player at (1,1) and a box at (2,1).
def lvlD : Level :=
  Level.mk 5 3
    [[Tile.Wall, Tile.Wall, Tile.Wall, Tile.Wall, Tile.Wall],
     [Tile.Wall, Tile.InsideFloor, Tile.InsideFloor, Tile.InsideFloor, Tile.Wall],
     [Tile.Wall, Tile.Wall, Tile.Wall, Tile.Wall, Tile.Wall]]
    (GameState.mk (Player.mk (Position.mk 1 1) Direction.Right)
      [Star.mk (Position.mk 2 1)] [Goal.mk (Position.mk 3 1)] 0)

def gameD : Game := Game.from_level lvlD

-- A 2 by 1 all-floor level with the player at (0,0), and the game state after
-- one accepted Right move from it.
def gameA : Game :=
  Game.mk (Level.mk 2 1 [[Tile.InsideFloor, Tile.InsideFloor]]
      (GameState.mk (Player.mk (Position.mk 0 0) Direction.Right) [] [] 0))
    (GameState.mk (Player.mk (Position.mk 0 0) Direction.Right) [] [] 0)

def gameA2 : Game :=
  Game.mk gameA.level
    (GameState.mk (Player.mk (Position.mk 1 0) Direction.Right) [] [] 0)

/-
  Claim theorems, counterexamples and witnesses.
-/

/-- C1: on the successfully parsed 5-wide, 3-high level whose row 1 has a Wall
at column 4, is_wall(4, 1) returns false even though (4, 1) lies inside the
grid and holds a Wall: the source compares the x-coordinate against the grid
height instead of its width, so the claimed bounds behaviour fails. -/
theorem c1_is_wall_defect :
    (Level.from_lines ["@####", "#####", "#####"]).map
        (fun l => (getCell l.map 4 1, l.is_wall 4 1)) =
      Except.ok (some Tile.Wall, some false) := by rfl

/-- C2: counterexample to the step-counter claim: on the parsed level "@ " the
Right move is accepted (the player position advances from x = 0 to x = 1), yet
the step counter stays at 0 instead of becoming 1 — make_move never touches
the steps field. -/
theorem c2_counterexample :
    (Level.from_lines ["@ "]).map
        (fun l => ((Game.from_level l).make_move Direction.Right).map
          (fun g2 => (g2.state.player.position.x, g2.state.steps))) =
      Except.ok (some (1, 0)) := by rfl

/-- C3: on the successfully parsed level "@*." the parser records a Goal only
for the character at column 2 (the plain Goal tile); the Box-on-goal at
column 1 records no Goal, because the goal branch of the scan is shadowed by
the earlier player/box branches, contradicting the claim. -/
theorem c3_goals_defect :
    (Level.from_lines ["@*."]).map (fun l => l.start_state.goals) =
      Except.ok [Goal.mk (Position.mk 2 0)] := by rfl

/-- C4: counterexample: the blob of two valid one-line levels "@" separated by
a blank line yields only one Level, not two — the final level is dropped
because no blank line follows it. -/
theorem c4_counterexample :
    (load_levels ["@", "", "@"]).map List.length = Except.ok 1 := by rfl

/-- C5: counterexample to totality: on the successfully parsed level "@" the
Up move underflows the unsigned y-coordinate of the player (a runtime panic
in the source, modelled as none), so the transition is not total. -/
theorem c5_counterexample :
    (Level.from_lines ["@"]).map
        (fun l => (Game.from_level l).make_move Direction.Up) =
      Except.ok none := by rfl

/-- C6: counterexample: on the parsed level "@." the state has no boxes and
one goal, so the box-position set differs from the goal-position set, yet
solved returns true — the code only checks that every box sits on a goal. -/
theorem c6_counterexample :
    (Level.from_lines ["@."]).map
        (fun l => ((Game.from_level l).solved,
                   (Game.from_level l).state.stars,
                   (Game.from_level l).state.goals)) =
      Except.ok (true, [], [Goal.mk (Position.mk 1 0)]) := by rfl

/-- C7: on the parsed level with row 1 = "# @$#" (player (2,1), box (3,1),
Wall (4,1)) the Right push should be rejected because the push target (4,1)
is a wall, but is_wall(4,1) returns false (x compared against height 3), so
the box is pushed onto the Wall cell and the player moves — the state is not
left unchanged. -/
theorem c7_push_into_wall_defect :
    (Level.from_lines ["#####", "# @$#", "#####"]).map
        (fun l => (getCell l.map 4 1,
          ((Game.from_level l).make_move Direction.Right).map
            (fun g2 => (g2.state.player.position, g2.state.stars)))) =
      Except.ok (some Tile.Wall,
        some (Position.mk 3 1, [Star.mk (Position.mk 4 1)])) := by rfl

/-- C8: on the parsed level with row 1 = "#  @#" (player (3,1), Wall (4,1))
the Right move should leave the player in place, but is_wall(4,1) returns
false (x compared against height 3), so the player walks onto the Wall cell
— the claimed frame condition fails. -/
theorem c8_walk_into_wall_defect :
    (Level.from_lines ["#####", "#  @#", "#####"]).map
        (fun l => (getCell l.map 4 1,
          ((Game.from_level l).make_move Direction.Right).map
            (fun g2 => g2.state.player.position))) =
      Except.ok (some Tile.Wall, some (Position.mk 4 1)) := by rfl

/-- C2 (amended): the step counter is never modified by the move transition:
whenever make_move completes, the resulting state's step counter equals the
incoming one, for accepted and rejected moves alike. -/
theorem c2_steps_unchanged (g g2 : Game) (d : Direction)
    (h : g.make_move d = some g2) : g2.state.steps = g.state.steps := by
  simp only [Game.make_move, Option.bind_eq_some] at h
  obtain ⟨nx, hnx, ny, hny, w, hw, h⟩ := h
  split at h
  · cases h; rfl
  · split at h
    · simp only [Game.push_star, Option.bind_eq_some] at h
      obtain ⟨px, hpx, py, hpy, b, hb, h⟩ := h
      split at h
      · cases h; rfl
      · simp only [Option.bind_eq_some, Option.map_eq_some'] at h
        obtain ⟨ind, hind, s0, hs0, s1, hs1, p2, hp2, h⟩ := h
        subst h; rfl
    · simp only [Game.walk, Option.map_eq_some'] at h
      obtain ⟨p2, hp2, h⟩ := h
      subst h; rfl

/-- C2 witness: a concrete accepted Right move on a 2 by 1 floor level keeps
the step counter unchanged. -/
theorem c2_steps_unchanged_witness :
    gameA.make_move Direction.Right = some gameA2 ∧
      gameA2.state.steps = gameA.state.steps :=
  ⟨by rfl, c2_steps_unchanged gameA gameA2 Direction.Right (by rfl)⟩

/-- C6 (amended): solved returns true iff every box position is also a goal
position (boxes may be fewer than goals; uncovered goals are not checked). -/
theorem c6_solved_iff (g : Game) :
    g.solved = true ↔ ∀ s ∈ g.state.stars, Goal.mk s.position ∈ g.state.goals := by
  simp [Game.solved, List.all_eq_true, List.elem_eq_mem]

theorem loadLevelsGo_flush (rest : List String) :
    ∀ (ls acc : List String), (∀ s ∈ ls, processLine s ≠ "") →
    loadLevelsGo acc (ls ++ "" :: rest) =
      if acc ++ ls.map processLine = [] then loadLevelsGo [] rest
      else
        (Level.from_lines (acc ++ ls.map processLine)).bind (fun lvl =>
          (loadLevelsGo [] rest).bind (fun more => Except.ok (lvl :: more))) := by
  intro ls
  induction ls with
  | nil =>
    intro acc _
    simp only [List.nil_append, List.map_nil, List.append_nil, loadLevelsGo]
    have h0 : processLine "" = "" := rfl
    rw [h0]
    simp only [ne_eq, not_true_eq_false, if_false, ite_not]
    split
    · rfl
    · rfl
  | cons l ls ih =>
    intro acc hls
    have hl : processLine l ≠ "" := hls l (by simp)
    simp only [List.cons_append, loadLevelsGo, List.append_eq]
    rw [if_pos hl]
    rw [ih (acc ++ [processLine l]) (fun s hs => hls s (by simp [hs]))]
    simp [List.append_assoc]

/-- C4 (amended): a blob of two valid blank-line-separated level descriptions
yields exactly the two Levels in order, provided the blob also ends with a
blank line; the loop only flushes a level when it meets a blank line, so a
final level with no blank line after it is silently dropped (see the
counterexample). -/
theorem c4_two_levels (ls1 ls2 : List String) (A B : Level)
    (h1 : ∀ s ∈ ls1, processLine s ≠ "") (h2 : ∀ s ∈ ls2, processLine s ≠ "")
    (hA : Level.from_lines (ls1.map processLine) = Except.ok A)
    (hB : Level.from_lines (ls2.map processLine) = Except.ok B) :
    load_levels (ls1 ++ "" :: (ls2 ++ [""])) = Except.ok [A, B] := by
  have hne1 : ls1.map processLine ≠ [] := by
    intro hemp
    rw [hemp] at hA
    exact Except.noConfusion hA
  have hne2 : ls2.map processLine ≠ [] := by
    intro hemp
    rw [hemp] at hB
    exact Except.noConfusion hB
  have step2 : loadLevelsGo [] (ls2 ++ "" :: []) = Except.ok [B] := by
    rw [loadLevelsGo_flush [] ls2 [] h2]
    simp only [List.nil_append]
    rw [if_neg hne2, hB]
    rfl
  unfold load_levels
  rw [loadLevelsGo_flush (ls2 ++ [""]) ls1 [] h1]
  simp only [List.nil_append]
  rw [if_neg hne1, hA]
  rw [show ls2 ++ [""] = ls2 ++ "" :: [] from rfl, step2]
  rfl

/-- C4 witness: the concrete blob of two one-line levels "@", each followed
by a blank line, loads as exactly two Levels. -/
theorem c4_two_levels_witness :
    load_levels ["@", "", "@", ""] = Except.ok [lvlE, lvlE] :=
  c4_two_levels ["@"] ["@"] lvlE lvlE (by decide) (by decide) (by rfl) (by rfl)

theorem i32Add_some (a b r : Int) (h : i32Add a b = some r) :
    r = a + b ∧ -(2 ^ 31) ≤ r ∧ r < 2 ^ 31 := by
  unfold i32Add at h
  split at h
  · rename_i hc
    cases h
    exact ⟨rfl, hc.1, hc.2⟩
  · exact Option.noConfusion h

theorem usizeToI32_small (n : Nat) (h : n < 2 ^ 31) : usizeToI32 n = (n : Int) := by
  simp only [usizeToI32]
  have h1 : (n : Int) % 2 ^ 32 = (n : Int) := by omega
  rw [h1, if_pos (by omega)]

theorem i32ToUsize_nonneg (i : Int) (h0 : 0 ≤ i) (h1 : i < 2 ^ 64) :
    i32ToUsize i = i.toNat := by
  simp only [i32ToUsize]
  congr 1
  omega

theorem contains_true_mem {l : List Star} {a : Star} (h : l.contains a = true) :
    a ∈ l := by
  simpa [List.elem_eq_mem] using h

theorem contains_false_not_mem {l : List Star} {a : Star} (h : l.contains a = false) :
    a ∉ l := by
  simpa [List.elem_eq_mem] using h

theorem listPosition_mem (l : List Star) (s : Star) (h : s ∈ l) :
    ∃ i, listPosition s l = some i ∧ l.get? i = some s := by
  induction l with
  | nil => cases h
  | cons a t ih =>
    by_cases ha : a = s
    · exact ⟨0, by simp [listPosition, ha], by simp [ha]⟩
    · have hmem : s ∈ t := by
        cases h with
        | head => exact absurd rfl ha
        | tail _ h2 => exact h2
      obtain ⟨i, hi, hg⟩ := ih hmem
      exact ⟨i + 1, by simp [listPosition, ha, hi], by simpa using hg⟩

theorem listPosition_get (l : List Star) (s : Star) (i : Nat)
    (h : listPosition s l = some i) : l.get? i = some s := by
  induction l generalizing i with
  | nil => exact Option.noConfusion h
  | cons a t ih =>
    simp only [listPosition] at h
    by_cases ha : a = s
    · rw [if_pos ha] at h
      cases h
      simp [ha]
    · rw [if_neg ha] at h
      simp only [Option.map_eq_some'] at h
      obtain ⟨j, hj, hji⟩ := h
      subst hji
      simpa using ih j hj

theorem mem_of_mem_set {α : Type} (l : List α) (n : Nat) (b a : α)
    (h : a ∈ l.set n b) : a ∈ l ∨ a = b := by
  induction l generalizing n with
  | nil => simp at h
  | cons c t ih =>
    cases n with
    | zero =>
      simp only [List.set] at h
      rcases List.mem_cons.mp h with h | h
      · exact Or.inr h
      · exact Or.inl (List.mem_cons_of_mem c h)
    | succ m =>
      simp only [List.set] at h
      rcases List.mem_cons.mp h with h | h
      · exact Or.inl (h ▸ List.mem_cons_self c t)
      · rcases ih m h with h2 | h2
        · exact Or.inl (List.mem_cons_of_mem c h2)
        · exact Or.inr h2

theorem distinctStars_set (l : List Star) (i : Nat) (s : Star)
    (hl : DistinctStars l) (hs : ∀ b ∈ l, b.position ≠ s.position) :
    DistinctStars (l.set i s) := by
  induction l generalizing i with
  | nil => simpa [DistinctStars] using hl
  | cons a t ih =>
    rw [DistinctStars, List.pairwise_cons] at hl
    cases i with
    | zero =>
      rw [show (a :: t).set 0 s = s :: t from rfl, DistinctStars, List.pairwise_cons]
      refine ⟨fun c hc => ?_, hl.2⟩
      exact fun he => hs c (List.mem_cons_of_mem a hc) he.symm
    | succ m =>
      rw [show (a :: t).set (m + 1) s = a :: t.set m s from rfl, DistinctStars,
        List.pairwise_cons]
      refine ⟨fun c hc => ?_, ih m hl.2 (fun b hb => hs b (List.mem_cons_of_mem a hb))⟩
      rcases mem_of_mem_set t m s c hc with h2 | h2
      · exact hl.1 c h2
      · exact h2 ▸ hs a (List.mem_cons_self a t)

theorem is_blocked_false_not_mem (g : Game) (x y : Int)
    (h : g.is_blocked x y = some false) :
    Star.mk (Position.mk (i32ToUsize x) (i32ToUsize y)) ∉ g.state.stars := by
  unfold Game.is_blocked at h
  simp only [Option.map_eq_some'] at h
  obtain ⟨w, _, h⟩ := h
  have h2 := (Bool.or_eq_false_iff.mp h).2
  exact contains_false_not_mem h2

theorem move_cast (d : Direction) (nx ny px py : Int)
    (hnb : -(2 ^ 31) ≤ nx ∧ nx < 2 ^ 31) (hnb2 : -(2 ^ 31) ≤ ny ∧ ny < 2 ^ 31)
    (hpx : i32Add nx (d.as_offset).1 = some px)
    (hpy : i32Add ny (d.as_offset).2 = some py)
    (s1 : Star)
    (hs1 : (Star.mk (Position.mk (i32ToUsize nx) (i32ToUsize ny))).move_in_direction d
             = some s1) :
    s1 = Star.mk (Position.mk (i32ToUsize px) (i32ToUsize py)) := by
  obtain ⟨hpx1, hpx2, hpx3⟩ := i32Add_some _ _ _ hpx
  obtain ⟨hpy1, hpy2, hpy3⟩ := i32Add_some _ _ _ hpy
  obtain ⟨hn1, hn2⟩ := hnb
  obtain ⟨hm1, hm2⟩ := hnb2
  cases d
  case Up =>
    simp only [Direction.as_offset] at hpx1 hpy1
    simp only [Star.move_in_direction, Position.move_in_direction, usizeSub1,
      i32ToUsize, Option.map_eq_some'] at hs1
    obtain ⟨q, ⟨a, ha, hmk⟩, hqs⟩ := hs1
    subst hmk
    subst hqs
    split at ha
    · exact Option.noConfusion ha
    · rename_i hz
      cases ha
      simp only [i32ToUsize, Star.mk.injEq, Position.mk.injEq]
      exact ⟨by omega, by omega⟩
  case Left =>
    simp only [Direction.as_offset] at hpx1 hpy1
    simp only [Star.move_in_direction, Position.move_in_direction, usizeSub1,
      i32ToUsize, Option.map_eq_some'] at hs1
    obtain ⟨q, ⟨a, ha, hmk⟩, hqs⟩ := hs1
    subst hmk
    subst hqs
    split at ha
    · exact Option.noConfusion ha
    · rename_i hz
      cases ha
      simp only [i32ToUsize, Star.mk.injEq, Position.mk.injEq]
      exact ⟨by omega, by omega⟩
  case Down =>
    simp only [Direction.as_offset] at hpx1 hpy1
    simp only [Star.move_in_direction, Position.move_in_direction, usizeAdd1,
      i32ToUsize, Option.map_eq_some'] at hs1
    obtain ⟨q, ⟨a, ha, hmk⟩, hqs⟩ := hs1
    subst hmk
    subst hqs
    rw [Option.ite_none_right_eq_some, Option.some.injEq] at ha
    obtain ⟨ha1, ha2⟩ := ha
    subst ha2
    simp only [i32ToUsize, Star.mk.injEq, Position.mk.injEq]
    exact ⟨by omega, by omega⟩
  case Right =>
    simp only [Direction.as_offset] at hpx1 hpy1
    simp only [Star.move_in_direction, Position.move_in_direction, usizeAdd1,
      i32ToUsize, Option.map_eq_some'] at hs1
    obtain ⟨q, ⟨a, ha, hmk⟩, hqs⟩ := hs1
    subst hmk
    subst hqs
    rw [Option.ite_none_right_eq_some, Option.some.injEq] at ha
    obtain ⟨ha1, ha2⟩ := ha
    subst ha2
    simp only [i32ToUsize, Star.mk.injEq, Position.mk.injEq]
    exact ⟨by omega, by omega⟩

theorem make_move_distinct (g g2 : Game) (d : Direction)
    (hmv : g.make_move d = some g2) (hd : DistinctStars g.state.stars) :
    DistinctStars g2.state.stars := by
  simp only [Game.make_move, Option.bind_eq_some] at hmv
  obtain ⟨nx, hnx, ny, hny, w, hw, hmv⟩ := hmv
  split at hmv
  · cases hmv
    exact hd
  · split at hmv
    · rename_i hcon
      simp only [Game.push_star, Option.bind_eq_some] at hmv
      obtain ⟨px, hpx, py, hpy, b, hb, hmv⟩ := hmv
      split at hmv
      · cases hmv
        exact hd
      · simp only [Option.bind_eq_some, Option.map_eq_some'] at hmv
        obtain ⟨ind, hind, s0, hs0, s1, hs1, p2, hp2, hmv⟩ := hmv
        subst hmv
        show DistinctStars (g.state.stars.set ind s1)
        have hs0star := listPosition_get _ _ _ hind
        rw [hs0] at hs0star
        cases hs0star
        obtain ⟨-, hnx2, hnx3⟩ := i32Add_some _ _ _ hnx
        obtain ⟨-, hny2, hny3⟩ := i32Add_some _ _ _ hny
        have hcast := move_cast d nx ny px py ⟨hnx2, hnx3⟩ ⟨hny2, hny3⟩ hpx hpy s1 hs1
        subst hcast
        have hnot := is_blocked_false_not_mem _ _ _ hb
        refine distinctStars_set _ _ _ hd (fun bs hbs hbpos => hnot ?_)
        have : bs = Star.mk (Position.mk (i32ToUsize px) (i32ToUsize py)) := by
          cases bs
          simp only [Star.mk.injEq]
          exact hbpos
        exact this ▸ hbs
    · simp only [Game.walk, Option.map_eq_some'] at hmv
      obtain ⟨p2, hp2, hmv⟩ := hmv
      subst hmv
      exact hd

/-- C9: for every successfully parsed Level whose start state has pairwise
distinct box positions, every state reachable from that start state by any
sequence of direction inputs (each completing without a runtime failure)
again has pairwise distinct box positions. -/
theorem c9_reachable_distinct (ls : List String) (lvl : Level) (g : Game)
    (hp : Level.from_lines ls = Except.ok lvl)
    (hd : DistinctStars lvl.start_state.stars)
    (hr : Game.Reachable (Game.from_level lvl) g) :
    DistinctStars g.state.stars := by
  induction hr with
  | refl => exact hd
  | tail _ hstep ih =>
    obtain ⟨d, hmv⟩ := hstep
    exact make_move_distinct _ _ d hmv ih

/-- C9 witness: the parsed level "@$ " has one box, trivially distinct, and
the start state itself is reachable. -/
theorem c9_reachable_distinct_witness :
    DistinctStars (Game.from_level lvlC).state.stars :=
  c9_reachable_distinct ["@$ "] lvlC (Game.from_level lvlC) (by rfl)
    (by unfold DistinctStars; decide) Relation.ReflTransGen.refl

theorem getCell_some (m : List (List Tile)) (w x y : Nat)
    (hrect : ∀ row ∈ m, row.length = w) (hy : y < m.length) (hx : x < w) :
    ∃ t, getCell m x y = some t := by
  unfold getCell
  obtain ⟨row, hrow⟩ : ∃ row, m.get? y = some row :=
    ⟨m.get ⟨y, hy⟩, List.get?_eq_get hy⟩
  rw [hrow]
  have hlen : row.length = w := hrect row (List.get?_mem hrow)
  exact ⟨row.get ⟨x, by omega⟩, List.get?_eq_get (by omega)⟩

theorem is_wall_some (l : Level) (x y : Int)
    (hrect : ∀ row ∈ l.map, row.length = l.width)
    (hlen : l.map.length = l.height)
    (hh : l.height < 2 ^ 31)
    (hxw : 0 ≤ x → x < (l.width : Int)) :
    ∃ b, l.is_wall x y = some b := by
  unfold Level.is_wall
  split
  · exact ⟨false, rfl⟩
  · rename_i hguard
    push_neg at hguard
    rw [usizeToI32_small l.height hh] at hguard
    obtain ⟨hy0, hyh, hx0, hxh⟩ := hguard
    have hx1 : x < (l.width : Int) := hxw hx0
    have hcx : i32ToUsize x = x.toNat := i32ToUsize_nonneg x hx0 (by omega)
    have hcy : i32ToUsize y = y.toNat := i32ToUsize_nonneg y hy0 (by omega)
    rw [hcx, hcy]
    obtain ⟨t, ht⟩ := getCell_some l.map l.width x.toNat y.toNat hrect
      (by omega) (by omega)
    exact ⟨t == Tile.Wall, by rw [ht]; rfl⟩

theorem position_move_some (p : Position) (d : Direction)
    (hx : 0 ≤ (p.x : Int) + (d.as_offset).1) (hy : 0 ≤ (p.y : Int) + (d.as_offset).2)
    (hxb : (p.x : Int) + (d.as_offset).1 < 2 ^ 64)
    (hyb : (p.y : Int) + (d.as_offset).2 < 2 ^ 64) :
    ∃ q, p.move_in_direction d = some q := by
  rw [← Option.isSome_iff_exists]
  cases d <;>
    simp only [Direction.as_offset] at hx hy hxb hyb <;>
    simp only [Position.move_in_direction, usizeAdd1, usizeSub1, Option.isSome_map] <;>
    split <;>
    first
      | rfl
      | (exfalso; omega)

theorem i32Add_double (a o w : Int) (h0 : 0 ≤ a + 2 * o) (h1 : a + 2 * o < w)
    (hw : w < 2 ^ 31) : i32Add (a + o) o = some (a + 2 * o) := by
  unfold i32Add
  rw [if_pos (by constructor <;> omega)]
  congr 1
  ring

set_option maxRecDepth 4000

/-- C5 (amended): the move transition is total whenever the cells it inspects
stay inside the grid: for a rectangular grid of width and height below 2^31,
if the player's move target lies inside the grid, and, when a box occupies
that target, the push target also lies inside the grid, then make_move
returns a well-defined state.  Without those bounds the transition can abort
(see the counterexample: moving Up from the top row underflows). -/
theorem c5_total_in_bounds (g : Game) (d : Direction)
    (hrect : ∀ row ∈ g.level.map, row.length = g.level.width)
    (hlen : g.level.map.length = g.level.height)
    (hw : g.level.width < 2 ^ 31) (hh : g.level.height < 2 ^ 31)
    (htx0 : 0 ≤ (g.state.player.position.x : Int) + (d.as_offset).1)
    (htx1 : (g.state.player.position.x : Int) + (d.as_offset).1 < (g.level.width : Int))
    (hty0 : 0 ≤ (g.state.player.position.y : Int) + (d.as_offset).2)
    (hty1 : (g.state.player.position.y : Int) + (d.as_offset).2 < (g.level.height : Int))
    (hpush : Star.mk (Position.mk ((g.state.player.position.x : Int) + (d.as_offset).1).toNat
                 ((g.state.player.position.y : Int) + (d.as_offset).2).toNat)
               ∈ g.state.stars →
             0 ≤ (g.state.player.position.x : Int) + 2 * (d.as_offset).1 ∧
             (g.state.player.position.x : Int) + 2 * (d.as_offset).1 < (g.level.width : Int) ∧
             0 ≤ (g.state.player.position.y : Int) + 2 * (d.as_offset).2 ∧
             (g.state.player.position.y : Int) + 2 * (d.as_offset).2 < (g.level.height : Int)) :
    (g.make_move d).isSome := by
  have hoffb : -1 ≤ (d.as_offset).1 ∧ (d.as_offset).1 ≤ 1 ∧
      -1 ≤ (d.as_offset).2 ∧ (d.as_offset).2 ≤ 1 := by
    cases d <;> simp [Direction.as_offset]
  obtain ⟨ho1, ho2, ho3, ho4⟩ := hoffb
  have hpx31 : g.state.player.position.x < 2 ^ 31 := by omega
  have hpy31 : g.state.player.position.y < 2 ^ 31 := by omega
  have hnx : i32Add (usizeToI32 g.state.player.position.x) (d.as_offset).1 =
      some ((g.state.player.position.x : Int) + (d.as_offset).1) := by
    rw [usizeToI32_small _ hpx31]
    unfold i32Add
    rw [if_pos (by constructor <;> omega)]
  have hny : i32Add (usizeToI32 g.state.player.position.y) (d.as_offset).2 =
      some ((g.state.player.position.y : Int) + (d.as_offset).2) := by
    rw [usizeToI32_small _ hpy31]
    unfold i32Add
    rw [if_pos (by constructor <;> omega)]
  have hwall := is_wall_some g.level
    ((g.state.player.position.x : Int) + (d.as_offset).1)
    ((g.state.player.position.y : Int) + (d.as_offset).2)
    hrect hlen hh (fun _ => htx1)
  obtain ⟨wb, hwb⟩ := hwall
  simp only [Game.make_move]
  rw [hnx, Option.some_bind, hny, Option.some_bind, hwb, Option.some_bind]
  cases wb
  · -- not a wall: box push or plain walk
    have hcastx : i32ToUsize ((g.state.player.position.x : Int) + (d.as_offset).1) =
        ((g.state.player.position.x : Int) + (d.as_offset).1).toNat :=
      i32ToUsize_nonneg _ htx0 (by omega)
    have hcasty : i32ToUsize ((g.state.player.position.y : Int) + (d.as_offset).2) =
        ((g.state.player.position.y : Int) + (d.as_offset).2).toNat :=
      i32ToUsize_nonneg _ hty0 (by omega)
    rw [hcastx, hcasty]
    obtain ⟨pq, hpq⟩ := position_move_some g.state.player.position d htx0 hty0
      (by omega) (by omega)
    cases hcon : g.state.stars.contains
        (Star.mk (Position.mk ((g.state.player.position.x : Int) + (d.as_offset).1).toNat
          ((g.state.player.position.y : Int) + (d.as_offset).2).toNat))
    · -- no box ahead: walk
      simp only [Game.walk, Player.move_in_direction]
      rw [hpq]
      rfl
    · -- box ahead: push
      have hmem := contains_true_mem hcon
      obtain ⟨hp1, hp2, hp3, hp4⟩ := hpush hmem
      have hppx := i32Add_double ((g.state.player.position.x : Int)) (d.as_offset).1
        (g.level.width : Int) hp1 hp2 (by exact_mod_cast hw)
      have hppy := i32Add_double ((g.state.player.position.y : Int)) (d.as_offset).2
        (g.level.height : Int) hp3 hp4 (by exact_mod_cast hh)
      obtain ⟨wb2, hwb2⟩ := is_wall_some g.level
        ((g.state.player.position.x : Int) + 2 * (d.as_offset).1)
        ((g.state.player.position.y : Int) + 2 * (d.as_offset).2)
        hrect hlen hh (fun _ => hp2)
      simp only [Game.push_star]
      rw [hppx, Option.some_bind, hppy, Option.some_bind]
      simp only [Game.is_blocked]
      rw [hwb2]
      simp only [Option.map_some', Option.some_bind]
      cases hb2 : (wb2 || g.state.stars.contains
          (Star.mk (Position.mk
            (i32ToUsize ((g.state.player.position.x : Int) + 2 * (d.as_offset).1))
            (i32ToUsize ((g.state.player.position.y : Int) + 2 * (d.as_offset).2)))))
      · -- push target free: locate the box, move it, move the player
        obtain ⟨ind, hind, hget⟩ := listPosition_mem _ _ hmem
        rw [hind, Option.some_bind, hget, Option.some_bind]
        simp only [Star.move_in_direction]
        obtain ⟨sq, hsq⟩ := position_move_some
          (Position.mk ((g.state.player.position.x : Int) + (d.as_offset).1).toNat
            ((g.state.player.position.y : Int) + (d.as_offset).2).toNat) d
          (by dsimp only; omega) (by dsimp only; omega)
          (by dsimp only; omega) (by dsimp only; omega)
        rw [hsq]
        simp only [Option.map_some', Option.some_bind, Player.move_in_direction]
        rw [hpq]
        rfl
      · -- push target blocked: rejected move, state still well defined
        rfl
  · -- wall ahead: move rejected, state still well defined
    rfl

theorem getCell_setCell {α : Type} (m : List (List α)) (x y i j : Nat) (t : α) :
    getCell (setCell m x y t) i j =
      if i = x ∧ j = y ∧ (getCell m x y).isSome then some t
      else getCell m i j := by
  unfold setCell getCell
  by_cases hj : j = y
  · subst hj
    rw [List.get?_set_eq]
    cases hrow : m.get? j with
    | none => simp [hrow]
    | some row =>
      simp only [hrow, Option.map_eq_map, Option.map_some', Option.some_bind,
        Option.getD_some]
      by_cases hi : i = x
      · subst hi
        rw [List.get?_set_eq]
        cases hcell : row.get? i with
        | none => simp [hcell]
        | some u => simp [hcell]
      · rw [List.get?_set_ne _ _ (fun he => hi he.symm)]
        simp [hi]
  · rw [List.get?_set_ne _ _ (fun he => hj he.symm)]
    cases hrow : m.get? y with
    | none => simp [hrow, hj]
    | some row => simp [hrow, hj]

theorem getCell_mem {α : Type} (m : List (List α)) (i j : Nat) (t : α)
    (h : getCell m i j = some t) : ∃ row, row ∈ m ∧ t ∈ row := by
  unfold getCell at h
  cases hrow : m.get? j with
  | none => rw [hrow] at h; exact Option.noConfusion h
  | some row =>
    rw [hrow] at h
    simp only [Option.some_bind] at h
    exact ⟨row, List.get?_mem hrow, List.get?_mem h⟩

theorem ffLink_cell_transfer {α : Type} {old new : α} (hne : old ≠ new)
    {m ma : List (List α)} {s : Nat × Nat} (h1 : FFLink old new m ma s) :
    ∀ q : Nat × Nat, getCell ma q.1 q.2 = some old → getCell m q.1 q.2 = some old := by
  intro q hq
  rcases h1 q with h | ⟨h, h2, _⟩
  · rw [← h]; exact hq
  · exact h

theorem ffLink_reach_transfer {α : Type} {old new : α} (hne : old ≠ new)
    {m ma : List (List α)} {s : Nat × Nat} (h1 : FFLink old new m ma s)
    (p c : Nat × Nat) : ReachOld ma old p c → ReachOld m old p c :=
  Relation.ReflTransGen.mono
    (fun _ b hab => ⟨hab.1, ffLink_cell_transfer hne h1 b hab.2⟩)

theorem ffLink_comp {α : Type} (old new : α) (hne : old ≠ new)
    (m ma mb : List (List α)) (s nb : Nat × Nat)
    (h1 : FFLink old new m ma s) (hadj : Adjacent s nb)
    (hold : getCell ma nb.1 nb.2 = some old)
    (h2 : FFLink old new ma mb nb) : FFLink old new m mb s := by
  intro c
  rcases h2 c with h | ⟨hma, hmb, hre⟩
  · rcases h1 c with h1c | ⟨hm, hma2, hre⟩
    · exact Or.inl (h.trans h1c)
    · exact Or.inr ⟨hm, h.trans hma2, hre⟩
  · have hmc : getCell m c.1 c.2 = some old := ffLink_cell_transfer hne h1 c hma
    have hrm : ReachOld m old nb c := ffLink_reach_transfer hne h1 nb c hre
    have hstep : OldStep m old s nb := ⟨hadj, ffLink_cell_transfer hne h1 nb hold⟩
    exact Or.inr ⟨hmc, hmb, Relation.ReflTransGen.head hstep hrm⟩

theorem ffLink_set {α : Type} [DecidableEq α] (old new : α)
    (m : List (List α)) (x y : Nat) :
    FFLink old new m (if getCell m x y = some old then setCell m x y new else m)
      (x, y) := by
  intro c
  split
  · rename_i hcell
    rw [getCell_setCell]
    by_cases hc : c.1 = x ∧ c.2 = y ∧ (getCell m x y).isSome
    · rw [if_pos hc]
      obtain ⟨h1, h2, _⟩ := hc
      have hcxy : c = (x, y) := Prod.ext h1 h2
      right
      refine ⟨?_, rfl, ?_⟩
      · rw [h1, h2]; exact hcell
      · rw [hcxy]; exact Relation.ReflTransGen.refl
    · rw [if_neg hc]
      exact Or.inl rfl
  · exact Or.inl rfl

theorem floodfillFuel_spec {α : Type} [DecidableEq α] (old new : α)
    (hne : old ≠ new) :
    ∀ (fuel : Nat) (m : List (List α)) (x y : Nat),
      FFLink old new m (floodfillFuel old new fuel m x y) (x, y) := by
  intro fuel
  induction fuel with
  | zero => intro m x y c; exact Or.inl rfl
  | succ n ih =>
    intro m x y
    simp only [floodfillFuel]
    generalize hm0 : (if getCell m x y = some old then setCell m x y new else m) = m0
    generalize hm1 : (if 0 < x ∧ getCell m0 (x - 1) y = some old then
      floodfillFuel old new n m0 (x - 1) y else m0) = m1
    generalize hm2 : (if x + 1 < rowLen m1 y ∧ getCell m1 (x + 1) y = some old then
      floodfillFuel old new n m1 (x + 1) y else m1) = m2
    generalize hm3 : (if 0 < y ∧ getCell m2 x (y - 1) = some old then
      floodfillFuel old new n m2 x (y - 1) else m2) = m3
    generalize hm4 : (if y + 1 < m3.length ∧ getCell m3 x (y + 1) = some old then
      floodfillFuel old new n m3 x (y + 1) else m3) = m4
    have L0 : FFLink old new m m0 (x, y) := by
      rw [← hm0]; exact ffLink_set old new m x y
    have L1 : FFLink old new m m1 (x, y) := by
      by_cases hg : 0 < x ∧ getCell m0 (x - 1) y = some old
      · rw [if_pos hg] at hm1
        have h2 : FFLink old new m0 m1 (x - 1, y) := by
          rw [← hm1]; exact ih m0 (x - 1) y
        exact ffLink_comp old new hne m m0 m1 (x, y) (x - 1, y) L0
          (Or.inr ⟨rfl, Or.inl (by omega)⟩) hg.2 h2
      · rw [if_neg hg] at hm1
        rw [← hm1]; exact L0
    have L2 : FFLink old new m m2 (x, y) := by
      by_cases hg : x + 1 < rowLen m1 y ∧ getCell m1 (x + 1) y = some old
      · rw [if_pos hg] at hm2
        have h2 : FFLink old new m1 m2 (x + 1, y) := by
          rw [← hm2]; exact ih m1 (x + 1) y
        exact ffLink_comp old new hne m m1 m2 (x, y) (x + 1, y) L1
          (Or.inr ⟨rfl, Or.inr rfl⟩) hg.2 h2
      · rw [if_neg hg] at hm2
        rw [← hm2]; exact L1
    have L3 : FFLink old new m m3 (x, y) := by
      by_cases hg : 0 < y ∧ getCell m2 x (y - 1) = some old
      · rw [if_pos hg] at hm3
        have h2 : FFLink old new m2 m3 (x, y - 1) := by
          rw [← hm3]; exact ih m2 x (y - 1)
        exact ffLink_comp old new hne m m2 m3 (x, y) (x, y - 1) L2
          (Or.inl ⟨rfl, Or.inl (by omega)⟩) hg.2 h2
      · rw [if_neg hg] at hm3
        rw [← hm3]; exact L2
    by_cases hg : y + 1 < m3.length ∧ getCell m3 x (y + 1) = some old
    · rw [if_pos hg] at hm4
      have h2 : FFLink old new m3 m4 (x, y + 1) := by
        rw [← hm4]; exact ih m3 x (y + 1)
      exact ffLink_comp old new hne m m3 m4 (x, y) (x, y + 1) L3
        (Or.inl ⟨rfl, Or.inr rfl⟩) hg.2 h2
    · rw [if_neg hg] at hm4
      rw [← hm4]; exact L3

/-- C10: on a parsed grid (every cell is a Wall or still-exterior floor), the
flood fill started at (x, y) relabels a tile to interior floor only if a
4-connected path of non-Wall floor tiles leads from the start to it; every
floor tile without such a path keeps its exterior classification, and no Wall
tile is ever relabelled. -/
theorem c10_floodfill_sound (m : List (List Tile)) (x y : Nat)
    (hcells : ∀ row ∈ m, ∀ t ∈ row, t = Tile.Wall ∨ t = Tile.OutsideFloor)
    (i j : Nat) :
    (getCell (floodfill m Tile.OutsideFloor Tile.InsideFloor x y) i j =
        some Tile.InsideFloor →
      getCell m i j = some Tile.OutsideFloor ∧ ReachableFloor m (x, y) (i, j)) ∧
    (getCell m i j = some Tile.Wall →
      getCell (floodfill m Tile.OutsideFloor Tile.InsideFloor x y) i j =
        some Tile.Wall) ∧
    (getCell m i j = some Tile.OutsideFloor →
      ¬ ReachableFloor m (x, y) (i, j) →
      getCell (floodfill m Tile.OutsideFloor Tile.InsideFloor x y) i j =
        some Tile.OutsideFloor) := by
  have hspec := floodfillFuel_spec Tile.OutsideFloor Tile.InsideFloor (by decide)
    (countOld m Tile.OutsideFloor + 1) m x y (i, j)
  have hconv : ∀ p q, ReachOld m Tile.OutsideFloor p q → ReachableFloor m p q :=
    fun p q h =>
      Relation.ReflTransGen.mono
        (fun _ b hab => ⟨hab.1, Tile.OutsideFloor, hab.2, by decide⟩) h
  unfold floodfill
  refine ⟨?_, ?_, ?_⟩
  · intro hin
    rcases hspec with h | ⟨h1, _, h3⟩
    · rw [hin] at h
      obtain ⟨row, hrow, hmem⟩ := getCell_mem m i j _ h.symm
      rcases hcells row hrow _ hmem with h2 | h2 <;> exact absurd h2 (by decide)
    · exact ⟨h1, hconv _ _ h3⟩
  · intro hwall
    rcases hspec with h | ⟨h1, _, _⟩
    · rw [h]; exact hwall
    · rw [hwall] at h1
      exact absurd h1 (by simp)
  · intro hout hnr
    rcases hspec with h | ⟨_, _, h3⟩
    · rw [h]; exact hout
    · exact absurd (hconv _ _ h3) hnr

/-- C10 witness: on the concrete grid [[ExteriorFloor, Wall]] with the fill
started at (0, 0), the Wall at (1, 0) keeps its classification. -/
theorem c10_floodfill_sound_witness :
    getCell (floodfill [[Tile.OutsideFloor, Tile.Wall]]
        Tile.OutsideFloor Tile.InsideFloor 0 0) 1 0 = some Tile.Wall :=
  (c10_floodfill_sound [[Tile.OutsideFloor, Tile.Wall]] 0 0 (by decide) 1 0).2.1
    (by decide)

/-- C5 witness: on the wall-enclosed level lvlD the Right move pushes the box
from (2,1) to (3,1); every inspected cell is inside the 5 by 3 grid and the
transition completes. -/
theorem c5_total_in_bounds_witness : (gameD.make_move Direction.Right).isSome :=
  c5_total_in_bounds gameD Direction.Right (by decide) (by decide) (by decide)
    (by decide) (by decide) (by decide) (by decide) (by decide) (by decide)

end Sokoban
